import Mathlib

/-!
Verification of the `Hell` math utility library (Rust) against its
specification.  The Rust sources are shallowly embedded: `f64` is modelled
by the real numbers `ℝ`, `u32`/`u64`/`usize` by `Nat` (with an explicit
`% 2 ^ 64` wherever 64-bit wrap-around matters), `Result<T, &str>` by
`Except String T` and `Option<T>` by `Option T`.  All functions in the
library are pure: the Rust methods take `&self`/`&other` borrows and build
fresh values, so the embedding as Lean functions is faithful and
non-mutation of operands is structural.
-/

namespace Hell

/-- Embeds `struct Matrix { rows: usize, cols: usize, data: Vec<Vec<f64>> }`
from `matrix.rs`. -/
structure Matrix where
  rows : Nat
  cols : Nat
  data : List (List ℝ)

/-- The invariant checked by the validating constructor `Matrix::new`:
`rows == data.len()` and every row of `data` has length `cols`. -/
def Matrix.Invariant (m : Matrix) : Prop :=
  m.data.length = m.rows ∧ ∀ row ∈ m.data, row.length = m.cols

instance (m : Matrix) : Decidable m.Invariant :=
  inferInstanceAs (Decidable (m.data.length = m.rows ∧ ∀ row ∈ m.data, row.length = m.cols))

/-- Reads element `(i, j)` of the matrix; total with default `0`, standing
for the always-in-bounds index accesses `self.data[i][j]` of the Rust code
(in-bounds under `Matrix.Invariant`). -/
def Matrix.entry (m : Matrix) (i j : Nat) : ℝ :=
  (m.data.getD i []).getD j 0

/-- Embeds `Matrix::identity(size)`: a `size × size` matrix that the Rust
code builds by filling with `0.0` and then setting `data[i][i] = 1.0` for
every `i`, i.e. entry `(i, j)` is `1.0` when `i = j` and `0.0` otherwise. -/
def Matrix.identity (size : Nat) : Matrix :=
  { rows := size, cols := size,
    data := (List.range size).map fun i =>
      (List.range size).map fun j => if i = j then (1 : ℝ) else 0 }

/-- Embeds `Matrix::transpose`: a `cols × rows` matrix with
`transposed[j][i] = self.data[i][j]` for all `i < rows`, `j < cols`. -/
def Matrix.transpose (m : Matrix) : Matrix :=
  { rows := m.cols, cols := m.rows,
    data := (List.range m.cols).map fun j =>
      (List.range m.rows).map fun i => m.entry i j }

/-- Embeds `Matrix::add`: on a dimension mismatch it returns the error
string of the Rust code; otherwise the Rust code clones `self.data` and
adds `other.data[i][j]` to every element `(i, j)` with `i < rows`,
`j < cols` (under the invariant this writes each element exactly once),
yielding the elementwise sum. -/
def Matrix.add (m other : Matrix) : Except String Matrix :=
  if m.rows ≠ other.rows ∨ m.cols ≠ other.cols then
    .error "Matrices dimensions do not match for addition."
  else
    .ok { rows := m.rows, cols := m.cols,
          data := (List.range m.rows).map fun i =>
            (List.range m.cols).map fun j => m.entry i j + other.entry i j }

/-- Embeds `Matrix::multiply`: on a dimension mismatch it returns the error
string of the Rust code; otherwise entry `(i, j)` of the result starts at
`0.0` and accumulates `self.data[i][k] * other.data[k][j]` for
`k = 0, 1, ..., self.cols - 1` in that order, exactly as the innermost
Rust loop does. -/
def Matrix.multiply (m other : Matrix) : Except String Matrix :=
  if m.cols ≠ other.rows then
    .error "Matrices dimensions do not match for multiplication."
  else
    .ok { rows := m.rows, cols := other.cols,
          data := (List.range m.rows).map fun i =>
            (List.range other.cols).map fun j =>
              (List.range m.cols).foldl
                (fun acc k => acc + m.entry i k * other.entry k j) 0 }

/-- Embeds the loop body of `gcd_two(a, b)` from `gcd.rs`:
`while b != 0 { temp = b; b = a % b; a = temp; } a`. -/
def gcd_two (a b : Nat) : Nat :=
  if h : b = 0 then a else gcd_two b (a % b)
termination_by b
decreasing_by exact Nat.mod_lt a (Nat.pos_of_ne_zero h)

/-- Embeds `gcd(numbers)` from `gcd.rs`:
`numbers.iter().cloned().reduce(|a, b| gcd_two(a, b)).unwrap_or(0)`, i.e.
`0` on the empty list and otherwise the left fold of `gcd_two` over the
tail, seeded with the head. -/
def gcd (numbers : List Nat) : Nat :=
  match numbers with
  | [] => 0
  | x :: xs => xs.foldl gcd_two x

/-- Embeds `factorial(n)` from `algebra.rs`: `(1..=n).product()` over `u64`,
so each multiplication wraps modulo `2 ^ 64`. -/
def factorial (n : Nat) : Nat :=
  (List.range' 1 n).foldl (fun acc k => acc * k % 2 ^ 64) 1

/-- Embeds `solve_quadratic(a, b, c)` from `quadratic.rs`: the discriminant
is `b * b - 4.0 * a * c`; a negative discriminant yields `None`; otherwise
the two roots `(-b ± sqrt(D)) / (2a)` are returned, `+` branch first. -/
noncomputable def solve_quadratic (a b c : ℝ) : Option (ℝ × ℝ) :=
  let discriminant := b * b - 4 * a * c
  if discriminant < 0 then none
  else
    let sqrt_discriminant := Real.sqrt discriminant
    some ((-b + sqrt_discriminant) / (2 * a), (-b - sqrt_discriminant) / (2 * a))

/-- Embeds `arcsine(value)` from `trigonometry.rs`: `None` outside
`[-1, 1]`, otherwise `Some(value.asin())`. -/
noncomputable def arcsine (value : ℝ) : Option ℝ :=
  if value < -1 ∨ value > 1 then none else some (Real.arcsin value)

/-- Embeds `arccosine(value)` from `trigonometry.rs`: `None` outside
`[-1, 1]`, otherwise `Some(value.acos())`. -/
noncomputable def arccosine (value : ℝ) : Option ℝ :=
  if value < -1 ∨ value > 1 then none else some (Real.arccos value)

/-- Embeds `integral(func, a, b, n)` from `calculus.rs`: the step is
`h = (b - a) / n as f64`, the accumulator starts at
`0.5 * (func(a) + func(b))`, the loop `for i in 1..n` adds
`func(a + i as f64 * h)`, and the result is `sum * h`. -/
noncomputable def integral (func : ℝ → ℝ) (a b : ℝ) (n : Nat) : ℝ :=
  let h : ℝ := (b - a) / (n : ℝ)
  let sum := (List.range' 1 (n - 1)).foldl
    (fun (s : ℝ) (i : Nat) => s + func (a + (i : ℝ) * h)) (0.5 * (func a + func b))
  sum * h

/-! Concrete matrices used by the witness theorems. -/

def M12 : Matrix := ⟨1, 2, [[1, 2]]⟩

def M21 : Matrix := ⟨2, 1, [[3], [4]]⟩

def M22 : Matrix := ⟨2, 2, [[1, 2], [3, 4]]⟩

def N22 : Matrix := ⟨2, 2, [[5, 6], [7, 8]]⟩

/-! Helper lemmas about lists, folds and the generator-form matrices. -/

lemma getD_map_range {α : Type} (f : Nat → α) (d : α) {i n : Nat} (h : i < n) :
    ((List.range n).map f).getD i d = f i := by
  simp [List.getD_eq_getElem?_getD, List.getElem?_map, List.getElem?_range h]

lemma foldl_add_eq_sum {α : Type} (g : α → ℝ) :
    ∀ (l : List α) (init : ℝ),
      l.foldl (fun s x => s + g x) init = init + (l.map g).sum
  | [], init => by simp
  | x :: xs, init => by
    simp [List.foldl_cons, foldl_add_eq_sum g xs (init + g x), add_assoc]

lemma sum_map_range_eq (g : Nat → ℝ) (n : Nat) :
    ((List.range n).map g).sum = ∑ k in Finset.range n, g k := by
  induction n with
  | zero => simp
  | succ n ih => simp [List.range_succ, Finset.sum_range_succ, ih]

lemma foldl_range_add_eq_sum (g : Nat → ℝ) (n : Nat) :
    (List.range n).foldl (fun acc k => acc + g k) 0 = ∑ k in Finset.range n, g k := by
  rw [foldl_add_eq_sum, sum_map_range_eq, zero_add]

lemma entry_mk_map {R C : Nat} (g : Nat → Nat → ℝ) {i j : Nat}
    (hi : i < R) (hj : j < C) :
    (Matrix.mk R C ((List.range R).map fun i =>
      (List.range C).map fun j => g i j)).entry i j = g i j := by
  rw [Matrix.entry]
  show (((List.range R).map fun i => (List.range C).map fun j => g i j).getD i []).getD j 0 = g i j
  rw [getD_map_range _ _ hi, getD_map_range _ _ hj]

lemma invariant_mk_map (R C : Nat) (g : Nat → Nat → ℝ) :
    (Matrix.mk R C ((List.range R).map fun i =>
      (List.range C).map fun j => g i j)).Invariant := by
  constructor
  · simp
  · intro row hrow
    simp only [List.mem_map] at hrow
    obtain ⟨i, _, rfl⟩ := hrow
    simp

lemma entry_eq_getElem {m : Matrix} {i j : Nat} (h2 : i < m.data.length)
    (h4 : j < (m.data[i]).length) :
    m.entry i j = (m.data[i])[j] := by
  have h5 : m.data.getD i [] = m.data[i] := by
    rw [List.getD_eq_getElem?_getD, List.getElem?_eq_getElem h2]
    rfl
  rw [Matrix.entry, h5, List.getD_eq_getElem?_getD, List.getElem?_eq_getElem h4]
  rfl

lemma gcd_two_eq_gcd (a b : Nat) : gcd_two a b = Nat.gcd a b := by
  induction b using Nat.strong_induction_on generalizing a with
  | _ b ih =>
    rw [gcd_two]
    split
    · rename_i h
      subst h
      simp
    · rename_i h
      rw [ih (a % b) (Nat.mod_lt a (Nat.pos_of_ne_zero h)) b]
      rw [Nat.gcd_comm b (a % b), ← Nat.gcd_rec b a, Nat.gcd_comm b a]

lemma factorial_eq_mod (n : Nat) : factorial n = Nat.factorial n % 2 ^ 64 := by
  induction n with
  | zero => simp [factorial, Nat.factorial]
  | succ n ih =>
    have hstep : factorial (n + 1) = factorial n * (n + 1) % 2 ^ 64 := by
      unfold factorial
      rw [List.range'_concat, List.foldl_append]
      have h1n : 1 + 1 * n = n + 1 := by omega
      rw [h1n]
      simp
    rw [hstep, ih, Nat.mod_mul_mod, Nat.factorial_succ, Nat.mul_comm (n + 1) (Nat.factorial n)]

lemma matrix_eq_of (m : Matrix) {R C : Nat} {d : List (List ℝ)}
    (h1 : R = m.rows) (h2 : C = m.cols) (h3 : d = m.data) : Matrix.mk R C d = m := by
  cases m
  simp_all

lemma identity_rows (n : Nat) : (Matrix.identity n).rows = n := rfl

lemma identity_cols (n : Nat) : (Matrix.identity n).cols = n := rfl

lemma identity_entry {n i k : Nat} (hi : i < n) (hk : k < n) :
    (Matrix.identity n).entry i k = if i = k then (1 : ℝ) else 0 :=
  entry_mk_map _ hi hk

/-- Claim C3: `gcd` returns `0` on the empty list, the element itself on a
singleton list, and otherwise the left fold of the pairwise Euclidean GCD
`gcd_two` over the whole list; `gcd_two` computes exactly the mathematical
GCD (so the iterated remainders terminate with the pairwise GCD), and the
five concrete examples of the specification hold.  Totality over all
non-negative inputs is structural: `gcd` and `gcd_two` are total
functions. -/
theorem gcd_spec :
    gcd [] = 0 ∧
    (∀ x : Nat, gcd [x] = x) ∧
    (∀ (x y : Nat) (ys : List Nat), gcd (x :: y :: ys) = (y :: ys).foldl gcd_two x) ∧
    (∀ a b : Nat, gcd_two a b = Nat.gcd a b) ∧
    gcd [48, 18, 30] = 6 ∧ gcd [101, 103, 107] = 1 ∧
    gcd [0, 0, 0] = 0 ∧ gcd [48] = 48 := by
  refine ⟨rfl, fun x => rfl, fun x y ys => rfl, gcd_two_eq_gcd, ?_, ?_, ?_, rfl⟩
  · show List.foldl gcd_two 48 [18, 30] = 6
    simp only [List.foldl_cons, List.foldl_nil, gcd_two_eq_gcd]
    norm_num
  · show List.foldl gcd_two 101 [103, 107] = 1
    simp only [List.foldl_cons, List.foldl_nil, gcd_two_eq_gcd]
    norm_num
  · show List.foldl gcd_two 0 [0, 0] = 0
    simp only [List.foldl_cons, List.foldl_nil, gcd_two_eq_gcd]
    norm_num

/-- Claim C4: `factorial n` computes the product of `1..=n` in 64-bit
arithmetic: it always equals the true factorial reduced modulo `2 ^ 64`,
agrees with the true factorial exactly when `n ≤ 20` (in particular at
`0`, `1` and `5`), and for every `n > 20` it silently wraps: the result
differs from the true factorial, with no error being signalled (the
function is total). -/
theorem factorial_spec :
    (∀ n : Nat, factorial n = Nat.factorial n % 2 ^ 64) ∧
    (∀ n : Nat, n ≤ 20 → factorial n = Nat.factorial n) ∧
    factorial 0 = 1 ∧ factorial 1 = 1 ∧ factorial 5 = 120 ∧
    (∀ n : Nat, 20 < n → factorial n ≠ Nat.factorial n) := by
  refine ⟨factorial_eq_mod, ?_, by decide, by decide, by decide, ?_⟩
  · intro n hn
    rw [factorial_eq_mod n]
    exact Nat.mod_eq_of_lt (lt_of_le_of_lt (Nat.factorial_le hn) (by decide))
  · intro n hn heq
    have h1 : Nat.factorial n % 2 ^ 64 < 2 ^ 64 := Nat.mod_lt _ (by decide)
    have h2 : 2 ^ 64 < Nat.factorial n :=
      lt_of_lt_of_le (by decide) (Nat.factorial_le (by omega : 21 ≤ n))
    rw [factorial_eq_mod n] at heq
    omega

/-- Witness for C4 at `n = 5` (exact value) and `n = 21` (wrapped value). -/
theorem factorial_spec_witness :
    (5 ≤ 20 ∧ factorial 5 = Nat.factorial 5) ∧
    (20 < 21 ∧ factorial 21 ≠ Nat.factorial 21) :=
  ⟨⟨by decide, factorial_spec.2.1 5 (by decide)⟩,
   ⟨by decide, factorial_spec.2.2.2.2.2 21 (by decide)⟩⟩

/-- Claim C1: for matrices satisfying the invariant, `multiply` returns
`Ok` of an `(self.rows × other.cols)` matrix whose entry `(i, j)` is the
sum over `k` of `self[i][k] * other[k][j]` whenever
`self.cols == other.rows`, and the dimension-mismatch error otherwise. -/
theorem multiply_spec (a b : Matrix) (ha : a.Invariant) (hb : b.Invariant) :
    (a.cols = b.rows →
      ∃ m, a.multiply b = Except.ok m ∧ m.rows = a.rows ∧ m.cols = b.cols ∧
        ∀ i < a.rows, ∀ j < b.cols,
          m.entry i j = ∑ k in Finset.range a.cols, a.entry i k * b.entry k j) ∧
    (a.cols ≠ b.rows →
      a.multiply b = Except.error "Matrices dimensions do not match for multiplication.") := by
  constructor
  · intro hdim
    rw [Matrix.multiply, if_neg (by simp [hdim])]
    refine ⟨_, rfl, rfl, rfl, ?_⟩
    intro i hi j hj
    rw [entry_mk_map _ hi hj, foldl_range_add_eq_sum]
  · intro hdim
    rw [Matrix.multiply, if_pos hdim]

/-- Witness for C1 in the matching-dimensions case with a `1 × 2` times
`2 × 1` product. -/
theorem multiply_spec_witness :
    (M12.Invariant ∧ M21.Invariant) ∧
    ((M12.cols = M21.rows →
      ∃ m, M12.multiply M21 = Except.ok m ∧ m.rows = M12.rows ∧ m.cols = M21.cols ∧
        ∀ i < M12.rows, ∀ j < M21.cols,
          m.entry i j = ∑ k in Finset.range M12.cols, M12.entry i k * M21.entry k j) ∧
    (M12.cols ≠ M21.rows →
      M12.multiply M21 = Except.error "Matrices dimensions do not match for multiplication.")) :=
  ⟨⟨by decide, by decide⟩, multiply_spec M12 M21 (by decide) (by decide)⟩

/-- Claim C2: for matrices satisfying the invariant, `add` returns `Ok` of
the elementwise sum exactly when the dimensions agree and the
dimension-mismatch error otherwise; the embedding is a pure function of
both operands, so neither operand is mutated in either branch. -/
theorem add_spec (a b : Matrix) (ha : a.Invariant) (hb : b.Invariant) :
    (a.rows = b.rows ∧ a.cols = b.cols →
      ∃ m, a.add b = Except.ok m ∧ m.rows = a.rows ∧ m.cols = a.cols ∧
        ∀ i < a.rows, ∀ j < a.cols, m.entry i j = a.entry i j + b.entry i j) ∧
    (¬(a.rows = b.rows ∧ a.cols = b.cols) →
      a.add b = Except.error "Matrices dimensions do not match for addition.") := by
  constructor
  · rintro ⟨hr, hc⟩
    rw [Matrix.add, if_neg (by simp [hr, hc])]
    refine ⟨_, rfl, rfl, rfl, ?_⟩
    intro i hi j hj
    rw [entry_mk_map _ hi hj]
  · intro hne
    rw [Matrix.add, if_pos (by tauto)]

/-- Witness for C2 with two `2 × 2` matrices of equal dimensions. -/
theorem add_spec_witness :
    (M22.Invariant ∧ N22.Invariant) ∧
    ((M22.rows = N22.rows ∧ M22.cols = N22.cols →
      ∃ m, M22.add N22 = Except.ok m ∧ m.rows = M22.rows ∧ m.cols = M22.cols ∧
        ∀ i < M22.rows, ∀ j < M22.cols, m.entry i j = M22.entry i j + N22.entry i j) ∧
    (¬(M22.rows = N22.rows ∧ M22.cols = N22.cols) →
      M22.add N22 = Except.error "Matrices dimensions do not match for addition.")) :=
  ⟨⟨by decide, by decide⟩, add_spec M22 N22 (by decide) (by decide)⟩

/-- Claim C7: for valid matrices of equal dimensions, `add` is
commutative: `a.add(b) == b.add(a)` (matrix elements are modelled by the
real numbers). -/
theorem add_commutative (a b : Matrix) (ha : a.Invariant) (hb : b.Invariant)
    (hr : a.rows = b.rows) (hc : a.cols = b.cols) : a.add b = b.add a := by
  rw [Matrix.add, Matrix.add, if_neg (by simp [hr, hc]), if_neg (by simp [hr, hc])]
  refine congrArg Except.ok ?_
  rw [← hr, ← hc]
  congr 1
  exact congrArg (fun f => List.map f (List.range a.rows)) (funext fun i =>
    congrArg (fun g => List.map g (List.range a.cols)) (funext fun j => add_comm _ _))

/-- Witness for C7 with two `2 × 2` matrices. -/
theorem add_commutative_witness :
    (M22.Invariant ∧ N22.Invariant ∧ M22.rows = N22.rows ∧ M22.cols = N22.cols) ∧
    M22.add N22 = N22.add M22 :=
  ⟨⟨by decide, by decide, by decide, by decide⟩,
   add_commutative M22 N22 (by decide) (by decide) (by decide) (by decide)⟩

/-- Claim C10: every matrix produced by `identity`, by `transpose`, or by
a successful `add` or `multiply` satisfies the structural invariant of
the validating constructor. -/
theorem matrix_invariant_spec :
    (∀ n : Nat, (Matrix.identity n).Invariant) ∧
    (∀ m : Matrix, m.Invariant → m.transpose.Invariant) ∧
    (∀ a b c : Matrix, a.add b = Except.ok c → c.Invariant) ∧
    (∀ a b c : Matrix, a.multiply b = Except.ok c → c.Invariant) := by
  refine ⟨fun n => invariant_mk_map n n _, fun m _ => invariant_mk_map m.cols m.rows _, ?_, ?_⟩
  · intro a b c h
    rw [Matrix.add] at h
    split at h
    · exact absurd h (by simp)
    · rw [Except.ok.injEq] at h
      subst h
      exact invariant_mk_map a.rows a.cols _
  · intro a b c h
    rw [Matrix.multiply] at h
    split at h
    · exact absurd h (by simp)
    · rw [Except.ok.injEq] at h
      subst h
      exact invariant_mk_map a.rows b.cols _

/-- Witness for C10: the invariant of a concrete identity, transpose, sum
and product. -/
theorem matrix_invariant_spec_witness :
    (Matrix.identity 2).Invariant ∧
    (M22.Invariant ∧ M22.transpose.Invariant) ∧
    (M22.add N22 = Except.ok ⟨2, 2, [[6, 8], [10, 12]]⟩ ∧
      (Matrix.mk 2 2 [[6, 8], [10, 12]]).Invariant) ∧
    (M22.multiply N22 = Except.ok ⟨2, 2, [[19, 22], [43, 50]]⟩ ∧
      (Matrix.mk 2 2 [[19, 22], [43, 50]]).Invariant) := by
  have hadd : M22.add N22 = Except.ok ⟨2, 2, [[6, 8], [10, 12]]⟩ := by
    norm_num [Matrix.add, Matrix.entry, M22, N22, List.range_succ]
  have hmul : M22.multiply N22 = Except.ok ⟨2, 2, [[19, 22], [43, 50]]⟩ := by
    norm_num [Matrix.multiply, Matrix.entry, M22, N22, List.range_succ]
  exact ⟨matrix_invariant_spec.1 2,
    ⟨by decide, matrix_invariant_spec.2.1 M22 (by decide)⟩,
    ⟨hadd, matrix_invariant_spec.2.2.1 M22 N22 _ hadd⟩,
    ⟨hmul, matrix_invariant_spec.2.2.2 M22 N22 _ hmul⟩⟩

/-- Claim C8: multiplying the identity factory matrix `identity(n)` with
any invariant-satisfying matrix `m` that has exactly `n` rows returns
`Ok(m)` (left-identity law, over real-modelled elements). -/
theorem identity_multiply_spec (n : Nat) (m : Matrix) (hm : m.Invariant)
    (hr : m.rows = n) : (Matrix.identity n).multiply m = Except.ok m := by
  obtain ⟨hlen, hrowlen⟩ := hm
  rw [Matrix.multiply, if_neg (by simp [identity_cols, hr])]
  refine congrArg Except.ok ?_
  have hrows : (Matrix.identity n).rows = n := identity_rows n
  have hcols : (Matrix.identity n).cols = n := identity_cols n
  rw [hrows, hcols]
  have hdata : (List.range n).map (fun i => (List.range m.cols).map fun j =>
      (List.range n).foldl (fun acc k => acc + (Matrix.identity n).entry i k * m.entry k j) 0)
      = m.data := by
    apply List.ext_getElem
    · simp
      omega
    · intro i h1 h2
      simp only [List.getElem_map, List.getElem_range]
      have hi : i < n := by simpa using h1
      apply List.ext_getElem
      · simpa using (hrowlen _ (List.getElem_mem h2)).symm
      · intro j h3 h4
        simp only [List.getElem_map, List.getElem_range]
        have hj : j < m.cols := by simpa using h3
        rw [foldl_range_add_eq_sum]
        have hsum : ∀ k ∈ Finset.range n,
            (Matrix.identity n).entry i k * m.entry k j
              = if i = k then m.entry k j else 0 := by
          intro k hk
          rw [identity_entry hi (Finset.mem_range.mp hk)]
          split <;> simp
        rw [Finset.sum_congr rfl hsum, Finset.sum_ite_eq,
          if_pos (Finset.mem_range.mpr hi)]
        exact entry_eq_getElem h2 h4
  exact matrix_eq_of m hr.symm rfl hdata

/-- Witness for C8: the `2 × 2` identity times a concrete `2 × 1`
matrix. -/
theorem identity_multiply_spec_witness :
    (M21.Invariant ∧ M21.rows = 2) ∧
    (Matrix.identity 2).multiply M21 = Except.ok M21 :=
  ⟨⟨by decide, by decide⟩, identity_multiply_spec 2 M21 (by decide) (by decide)⟩

/-- Claim C5: `solve_quadratic` computes the discriminant
`D = b * b - 4 * a * c`, returns `None` when `D < 0`, and otherwise
returns `Some` of the pair of roots with the `+` branch first; the two
concrete examples of the specification hold (real-number model of
`f64`). -/
theorem solve_quadratic_spec :
    (∀ a b c : ℝ, b * b - 4 * a * c < 0 → solve_quadratic a b c = none) ∧
    (∀ a b c : ℝ, 0 ≤ b * b - 4 * a * c →
      solve_quadratic a b c =
        some ((-b + Real.sqrt (b * b - 4 * a * c)) / (2 * a),
          (-b - Real.sqrt (b * b - 4 * a * c)) / (2 * a))) ∧
    solve_quadratic 1 (-3) 2 = some (2, 1) ∧
    solve_quadratic 1 2 5 = none := by
  have hneg : ∀ a b c : ℝ, b * b - 4 * a * c < 0 → solve_quadratic a b c = none := by
    intro a b c h
    simp only [solve_quadratic]
    rw [if_pos h]
  have hpos : ∀ a b c : ℝ, 0 ≤ b * b - 4 * a * c →
      solve_quadratic a b c =
        some ((-b + Real.sqrt (b * b - 4 * a * c)) / (2 * a),
          (-b - Real.sqrt (b * b - 4 * a * c)) / (2 * a)) := by
    intro a b c h
    simp only [solve_quadratic]
    rw [if_neg (not_lt.mpr h)]
  refine ⟨hneg, hpos, ?_, hneg 1 2 5 (by norm_num)⟩
  rw [hpos 1 (-3) 2 (by norm_num)]
  norm_num

/-- Witness for C5: the negative-discriminant branch at `(1, 2, 5)` and
the non-negative branch at `(1, -3, 2)`. -/
theorem solve_quadratic_spec_witness :
    ((2 : ℝ) * 2 - 4 * 1 * 5 < 0 ∧ solve_quadratic 1 2 5 = none) ∧
    ((0 : ℝ) ≤ (-3) * (-3) - 4 * 1 * 2 ∧
      solve_quadratic 1 (-3) 2 =
        some ((-(-3) + Real.sqrt ((-3) * (-3) - 4 * 1 * 2)) / (2 * 1),
          (-(-3) - Real.sqrt ((-3) * (-3) - 4 * 1 * 2)) / (2 * 1))) :=
  ⟨⟨by norm_num, solve_quadratic_spec.1 1 2 5 (by norm_num)⟩,
   ⟨by norm_num, solve_quadratic_spec.2.1 1 (-3) 2 (by norm_num)⟩⟩

/-- Claim C6: `arcsine` and `arccosine` return `None` outside `[-1, 1]`
and otherwise `Some` of the principal angle: an angle whose sine
(respectively cosine) is the input, lying in `[-pi/2, pi/2]`
(respectively `[0, pi]`). -/
theorem arcsine_arccosine_spec :
    (∀ v : ℝ, (v < -1 ∨ 1 < v) → arcsine v = none ∧ arccosine v = none) ∧
    (∀ v : ℝ, -1 ≤ v → v ≤ 1 →
      arcsine v = some (Real.arcsin v) ∧ arccosine v = some (Real.arccos v) ∧
      Real.sin (Real.arcsin v) = v ∧ Real.cos (Real.arccos v) = v ∧
      -(Real.pi / 2) ≤ Real.arcsin v ∧ Real.arcsin v ≤ Real.pi / 2 ∧
      0 ≤ Real.arccos v ∧ Real.arccos v ≤ Real.pi) := by
  constructor
  · intro v hv
    constructor
    · rw [arcsine, if_pos hv]
    · rw [arccosine, if_pos hv]
  · intro v h1 h2
    have hcond : ¬(v < -1 ∨ v > 1) := by
      push_neg
      exact ⟨not_lt.mpr h1 |> fun h => le_of_not_lt h, h2⟩
    refine ⟨?_, ?_, Real.sin_arcsin h1 h2, Real.cos_arccos h1 h2,
      Real.neg_pi_div_two_le_arcsin v, Real.arcsin_le_pi_div_two v,
      Real.arccos_nonneg v, Real.arccos_le_pi v⟩
    · rw [arcsine, if_neg hcond]
    · rw [arccosine, if_neg hcond]

/-- Witness for C6: the out-of-range branch at `2` and the in-range
branch at `0`. -/
theorem arcsine_arccosine_spec_witness :
    (((2 : ℝ) < -1 ∨ (1 : ℝ) < 2) ∧ (arcsine 2 = none ∧ arccosine 2 = none)) ∧
    ((-1 : ℝ) ≤ 0 ∧ (0 : ℝ) ≤ 1 ∧
      (arcsine 0 = some (Real.arcsin 0) ∧ arccosine 0 = some (Real.arccos 0) ∧
       Real.sin (Real.arcsin 0) = 0 ∧ Real.cos (Real.arccos 0) = 0 ∧
       -(Real.pi / 2) ≤ Real.arcsin 0 ∧ Real.arcsin 0 ≤ Real.pi / 2 ∧
       0 ≤ Real.arccos 0 ∧ Real.arccos 0 ≤ Real.pi)) :=
  ⟨⟨by norm_num, arcsine_arccosine_spec.1 2 (by norm_num)⟩,
   ⟨by norm_num, by norm_num,
    arcsine_arccosine_spec.2 0 (by norm_num) (by norm_num)⟩⟩

lemma sum_map_range'_eq (g : Nat → ℝ) (s n : Nat) :
    ((List.range' s n).map g).sum = ∑ k in Finset.range n, g (s + k) := by
  rw [List.range'_eq_map_range, List.map_map]
  exact sum_map_range_eq (fun k => g (s + k)) n

/-- Claim C9: `integral(func, a, b, n)` equals `sum * h` where
`h = (b - a) / n` and `sum` is `0.5 * (func a + func b)` plus the sum of
`func (a + i * h)` for `i = 1, ..., n - 1`: the trapezoidal rule exactly
as the accumulation loop computes it. -/
theorem integral_spec (func : ℝ → ℝ) (a b : ℝ) (n : Nat) :
    integral func a b n =
      (0.5 * (func a + func b) +
        ∑ i in Finset.Ico 1 n, func (a + (i : ℝ) * ((b - a) / (n : ℝ)))) *
      ((b - a) / (n : ℝ)) := by
  simp only [integral]
  rw [foldl_add_eq_sum]
  have hsum : ((List.range' 1 (n - 1)).map fun (i : Nat) =>
        func (a + (i : ℝ) * ((b - a) / (n : ℝ)))).sum
      = ∑ i in Finset.Ico 1 n, func (a + (i : ℝ) * ((b - a) / (n : ℝ))) := by
    rw [sum_map_range'_eq, Finset.sum_Ico_eq_sum_range]
  rw [hsum]

end Hell
